import Mathlib

/- Verification development for src/watcher.py (Mercari -> Discord watcher).
   The Python values flowing through the extraction pipeline are modelled by
   the JSON-like type `JVal`; Python exceptions are modelled with `Except`.
   All definitions are translated from the source file; line numbers refer
   to src/watcher.py. -/

mutual

inductive JVal : Type where
  | null : JVal
  | vbool : Bool → JVal
  | vint : Int → JVal
  | vfloat : Rat → JVal
  | vstr : String → JVal
  | arr : JList → JVal
  | obj : JObj → JVal

inductive JList : Type where
  | nil : JList
  | cons : JVal → JList → JList

inductive JObj : Type where
  | nil : JObj
  | cons : String → JVal → JObj → JObj

end

def JList.ofList : List JVal → JList
  | [] => .nil
  | v :: rest => .cons v (JList.ofList rest)

def JObj.ofList : List (String × JVal) → JObj
  | [] => .nil
  | (k, v) :: rest => .cons k v (JObj.ofList rest)

def jarr (l : List JVal) : JVal := .arr (JList.ofList l)

def jobj (l : List (String × JVal)) : JVal := .obj (JObj.ofList l)

/- Python truthiness for the modelled values. -/
def truthy : JVal → Bool
  | .null => false
  | .vbool b => b
  | .vint n => n != 0
  | .vfloat q => q != 0
  | .vstr s => s != ""
  | .arr .nil => false
  | .arr _ => true
  | .obj .nil => false
  | .obj _ => true

mutual

/- Python str()/repr() rendering of non-string values, approximated:
   string escaping and float decimal formatting are not modelled
   (no claim depends on them). -/
def pyRepr : JVal → String
  | .null => "None"
  | .vbool b => if b then "True" else "False"
  | .vint n => toString n
  | .vfloat q => toString q
  | .vstr s => "'" ++ s ++ "'"
  | .arr xs => "[" ++ pyReprL xs ++ "]"
  | .obj kvs => "\x7b" ++ pyReprO kvs ++ "\x7d"

def pyReprL : JList → String
  | .nil => ""
  | .cons v .nil => pyRepr v
  | .cons v tl => pyRepr v ++ ", " ++ pyReprL tl

def pyReprO : JObj → String
  | .nil => ""
  | .cons k v .nil => "'" ++ k ++ "': " ++ pyRepr v
  | .cons k v tl => "'" ++ k ++ "': " ++ pyRepr v ++ ", " ++ pyReprO tl

end

def pyStr : JVal → String
  | .vstr s => s
  | v => pyRepr v

def isSepChar (c : Char) : Bool := c.isDigit || c == ','

/- Leftmost match of the regex fragment [\d,]+ : the first maximal run of
   digit-or-comma characters. -/
def firstSepRun : List Char → Option (List Char)
  | [] => none
  | c :: rest =>
    if isSepChar c then some ((c :: rest).takeWhile isSepChar)
    else firstSepRun rest

def digitsVal (ds : List Char) : Nat :=
  ds.foldl (fun a c => 10 * a + (c.toNat - 48)) 0

/- re.search(r"\$?\s*([\d,]+)", s) followed by int(group(1).replace(",", "")).
   When the matched run holds only commas, int("") raises ValueError. -/
def parseFromText (s : String) : Except String (Option Int) :=
  match firstSepRun s.toList with
  | none => Except.ok none
  | some run =>
    if (run.filter (fun c => c != ',')).isEmpty then
      Except.error "ValueError: invalid literal for int"
    else Except.ok (some (digitsVal (run.filter (fun c => c != ','))))

/- parse_price_scalar, src/watcher.py lines 41-46.  Python bool is an
   instance of int (int(True) = 1); int() on a float truncates toward
   zero, which Int.div does on num/den. -/
def parse_price_scalar : JVal → Except String (Option Int)
  | .null => Except.ok none
  | .vbool b => Except.ok (some (if b then 1 else 0))
  | .vint n => Except.ok (some n)
  | .vfloat q => Except.ok (some (Int.tdiv q.num q.den))
  | v => parseFromText (pyStr v)

/- title.split() : split on whitespace runs, dropping empty pieces. -/
def splitWsAux : List Char → List Char → List (List Char)
  | [], acc => if acc.isEmpty then [] else [acc.reverse]
  | c :: rest, acc =>
    if c.isWhitespace then
      (if acc.isEmpty then splitWsAux rest [] else acc.reverse :: splitWsAux rest [])
    else splitWsAux rest (c :: acc)

def joinWords : List (List Char) → String
  | [] => ""
  | [w] => String.mk w
  | w :: rest => String.mk w ++ " " ++ joinWords rest

/- " ".join(title.split()) : collapse whitespace runs, trim edges. -/
def normTitle (s : String) : String := joinWords (splitWsAux s.toList [])

/- Python str.startswith. -/
def strStarts (s pre : String) : Bool := pre.toList.isPrefixOf s.toList

def pyGet : JObj → String → Option JVal
  | .nil, _ => none
  | .cons k v tl, key => if k == key then some v else pyGet tl key

/- x.get(k1) or x.get(k2) or ... : the first truthy value in key order
   (a present-but-falsy value falls through to the next key). -/
def pyOrGets (kvs : JObj) : List String → Option JVal
  | [] => none
  | k :: rest =>
    match pyGet kvs k with
    | some v => if truthy v then some v else pyOrGets kvs rest
    | none => pyOrGets kvs rest

/- for k in keys: if k in x: ... break  -- the first PRESENT key's value,
   regardless of that value. -/
def firstPresent (kvs : JObj) : List String → Option JVal
  | [] => none
  | k :: rest =>
    match pyGet kvs k with
    | some v => some v
    | none => firstPresent kvs rest

def flatPriceKeys : List String := ["price", "currentPrice", "amount", "itemPrice"]

def nestedPriceKeys : List String := ["value", "amount", "current", "number"]

def flatPrice (kvs : JObj) : Except String (Option Int) :=
  match firstPresent kvs flatPriceKeys with
  | none => Except.ok none
  | some v => parse_price_scalar v

/- The nested probe only runs when the flat pass produced None and the
   "price" key holds a dict (lines 67-70). -/
def nestedPrice (kvs : JObj) : Except String (Option Int) :=
  match pyGet kvs "price" with
  | some (.obj inner) =>
    (match firstPresent inner nestedPriceKeys with
     | none => Except.ok none
     | some v => parse_price_scalar v)
  | _ => Except.ok none

structure Item where
  id : String
  title : String
  price : Int
deriving DecidableEq

/- The per-dict extraction attempt of _walk, src/watcher.py lines 56-77:
   accept when possible_id truthy, title truthy and a string, and price
   parsed to a non-None value. -/
def candidate (kvs : JObj) : Except String (Option Item) :=
  match flatPrice kvs with
  | Except.error e => Except.error e
  | Except.ok p0 =>
    match (match p0 with
           | some n => Except.ok (some n)
           | none => nestedPrice kvs) with
    | Except.error e => Except.error e
    | Except.ok price =>
      match pyOrGets kvs ["id", "itemId", "uuid"],
            pyOrGets kvs ["name", "title", "itemName"], price with
      | some idv, some (.vstr t), some p =>
        Except.ok (some { id := pyStr idv, title := normTitle t, price := p })
      | _, _, _ => Except.ok none

mutual

/- _walk, lines 55-83: preorder traversal, the current dict's candidate
   before its values; a ValueError from the price parse propagates. -/
def walkJ : JVal → Except String (List Item)
  | .obj kvs =>
    (match candidate kvs with
     | Except.error e => Except.error e
     | Except.ok c =>
       match walkO kvs with
       | Except.error e => Except.error e
       | Except.ok rest => Except.ok (c.toList ++ rest))
  | .arr xs => walkL xs
  | _ => Except.ok []
termination_by structural x => x

def walkL : JList → Except String (List Item)
  | .nil => Except.ok []
  | .cons v tl =>
    match walkJ v with
    | Except.error e => Except.error e
    | Except.ok a =>
      match walkL tl with
      | Except.error e => Except.error e
      | Except.ok b => Except.ok (a ++ b)
termination_by structural l => l

def walkO : JObj → Except String (List Item)
  | .nil => Except.ok []
  | .cons _ v tl =>
    match walkJ v with
    | Except.error e => Except.error e
    | Except.ok a =>
      match walkO tl with
      | Except.error e => Except.error e
      | Except.ok b => Except.ok (a ++ b)
termination_by structural kvs => kvs

end

def keyOf (it : Item) : String × Int := (it.id, it.price)

/- dedup[(it["id"], it["price"])] = it over an insertion-ordered dict:
   an existing key keeps its position but takes the new value, a new key
   is appended. -/
def upsert (acc : List ((String × Int) × Item)) (it : Item) :
    List ((String × Int) × Item) :=
  if keyOf it ∈ acc.map Prod.fst then
    acc.map (fun p => if p.1 = keyOf it then (p.1, it) else p)
  else acc ++ [(keyOf it, it)]

def dedupByIdPrice (l : List Item) : List Item :=
  (l.foldl upsert []).map Prod.snd

/- walk_items, src/watcher.py lines 48-89. -/
def walk_items (doc : JVal) : Except String (List Item) :=
  match walkJ doc with
  | Except.error e => Except.error e
  | Except.ok found => Except.ok (dedupByIdPrice found)

structure Listing where
  title : String
  price : Int
  url : String
deriving DecidableEq

def hasSubAux (pat : List Char) : List Char → Bool
  | [] => pat.isEmpty
  | c :: rest => pat.isPrefixOf (c :: rest) || hasSubAux pat rest

/- Python substring containment: pat in s. -/
def hasSub (s pat : String) : Bool := hasSubAux pat.toList s.toList

/- Identifier-to-URL resolution, src/watcher.py lines 113-123. -/
def buildListing (it : Item) : Listing :=
  { title := it.title, price := it.price,
    url :=
      if hasSub it.id "/item/" then
        (if strStarts it.id "/" then "https://www.mercari.com" ++ it.id else it.id)
      else "https://www.mercari.com/us/item/" ++ it.id ++ "/" }

/- Outcome of probing a page for script#__NEXT_DATA__ (lines 91-103). -/
inductive NextDataProbe : Type where
  | timeout : NextDataProbe
  | noText : NextDataProbe
  | badJson : NextDataProbe
  | ok : JVal → NextDataProbe

/- fetch_listings_from_nextdata, lines 91-124: a selector timeout, empty
   text or a JSON parse error each yield []; an exception from walk_items
   propagates. -/
def fetch_listings_from_nextdata : NextDataProbe → Except String (List Listing)
  | .ok data =>
    (match walk_items data with
     | Except.error e => Except.error e
     | Except.ok items => Except.ok (items.map buildListing))
  | _ => Except.ok []

/- Outcome of opening one harvested item URL (lines 167-176): p2.goto is
   wrapped in try/finally with no except, so its timeout propagates. -/
inductive ItemVisit : Type where
  | gotoTimeout : ItemVisit
  | loaded : NextDataProbe → ItemVisit

/- Anchor harvest, lines 159-164: keep truthy hrefs containing "/item/",
   absolutize those not starting with "http". -/
def collectUrls (anchors : List (Option String)) : List String :=
  anchors.filterMap (fun h =>
    match h with
    | none => none
    | some href =>
      if href != "" && hasSub href "/item/" then
        some (if strStarts href "http" then href
              else "https://www.mercari.com" ++ href)
      else none)

def dedupAux {α : Type} [DecidableEq α] (seen : List α) : List α → List α
  | [] => []
  | x :: rest => if x ∈ seen then dedupAux seen rest else x :: dedupAux (x :: seen) rest

/- list(dict.fromkeys(urls))[:8], line 166. -/
def harvestUrls (anchors : List (Option String)) : List String :=
  (dedupAux [] (collectUrls anchors)).take 8

/- The per-item-page loop, lines 167-176: every item found on a visited
   page is appended; a goto timeout propagates as an exception. -/
def visitAll (visit : String → ItemVisit) : List String → Except String (List Listing)
  | [] => Except.ok []
  | u :: rest =>
    match visit u with
    | ItemVisit.gotoTimeout => Except.error "PWTimeout"
    | ItemVisit.loaded probe =>
      match fetch_listings_from_nextdata probe with
      | Except.error e => Except.error e
      | Except.ok items =>
        match visitAll visit rest with
        | Except.error e => Except.error e
        | Except.ok more => Except.ok (items ++ more)

/- fetch_listings, src/watcher.py lines 126-182, with the browser session
   abstracted: `primary` is the search page's __NEXT_DATA__ probe outcome,
   `anchors` the hrefs of the a[href*='/item/'] locator (none = missing
   attribute), `visit` the outcome of opening each harvested item URL. -/
def fetch_listings (primary : NextDataProbe) (anchors : List (Option String))
    (visit : String → ItemVisit) : Except String (List Listing) :=
  match fetch_listings_from_nextdata primary with
  | Except.error e => Except.error e
  | Except.ok listings =>
    if listings.isEmpty then visitAll visit (harvestUrls anchors)
    else Except.ok listings

/- main, src/watcher.py lines 184-197: the only acceptance check is the
   price ceiling; the Discord message lists the first 10 survivors. -/
def main_price_filter (listings : List Listing) (maxPrice : Int) : List Listing :=
  listings.filter (fun x => decide (x.price ≤ maxPrice))

def main_notify_list (listings : List Listing) (maxPrice : Int) : List Listing :=
  (main_price_filter listings maxPrice).take 10

mutual

/- Every numeric value in the document is non-negative. -/
def nonnegJ : JVal → Bool
  | .vint n => decide (0 ≤ n)
  | .vfloat q => decide (0 ≤ q)
  | .arr xs => nonnegL xs
  | .obj kvs => nonnegO kvs
  | _ => true

def nonnegL : JList → Bool
  | .nil => true
  | .cons v tl => nonnegJ v && nonnegL tl

def nonnegO : JObj → Bool
  | .nil => true
  | .cons _ v tl => nonnegJ v && nonnegO tl

end

deriving instance DecidableEq for Except

/- The float 1234.99, as the exact rational 123499/100. -/
def ratSample : Rat := ⟨123499, 100, by decide, by decide⟩

/- Concrete scenario data used by the claim theorems below. -/

def exC1fresh : List Listing :=
  [⟨"BOYGENIUS BAGGU TOTE", 40, "u1"⟩, ⟨"RANDOM SHIRT", 10, "u2"⟩]

def exC2fresh : List Listing := [⟨"BOYGENIUS BAGGU TOTE", 40, "u1"⟩]

def exC5doc : JVal := jobj [("id", .vstr "m1"), ("name", .vstr "A"), ("price", .vint 5)]

def exC6mixed : JVal :=
  jarr [jobj [("name", .vstr "No ID"), ("price", .vint 3)],
        jobj [("id", .vstr "g"), ("name", .vstr "Good"), ("price", .vint 4)]]

def exC6comma : JVal := jobj [("id", .vstr "a"), ("name", .vstr "T"), ("price", .vstr ",")]

def exC7doc : JVal :=
  jarr [jobj [("id", .vstr "m1"), ("name", .vstr "A tote"), ("price", .vint 5),
              ("seller", .vstr "s1")],
        jobj [("wrap", jobj [("id", .vstr "m1"), ("title", .vstr "A tote"),
                             ("price", .vint 5), ("color", .vstr "red")])]]

def exC8data : JVal :=
  jarr [jobj [("id", .vstr "x"), ("name", .vstr "A"), ("price", .vint 1)],
        jobj [("id", .vstr "y"), ("name", .vstr "B"), ("price", .vint 2)]]

def exC8visit : String → ItemVisit := fun _ => ItemVisit.loaded (NextDataProbe.ok exC8data)

def exC9neg : JVal := jobj [("id", .vstr "a"), ("name", .vstr "t"), ("price", .vint (-5))]

def exC9pos : JVal := jobj [("id", .vstr "a"), ("name", .vstr "T"), ("price", .vint 7)]

/-- C1 counterexample: the listing "RANDOM SHIRT" fails title relevance against
the tokens boygenius/baggu, its price 10 passes the ceiling 100, and it IS in
the notify-list: main applies no title check, refuting the claimed exclusion. -/
theorem c1_counterexample :
    Listing.mk "RANDOM SHIRT" 10 "u2" ∈ main_notify_list exC1fresh 100 := by decide

/-- C1 amended: a fresh listing enters the notified set exactly when its price
is at most maxPrice; title relevance is never consulted. -/
theorem c1_amended_price_only (x : Listing) (l : List Listing) (maxP : Int) :
    x ∈ main_price_filter l maxP ↔ x ∈ l ∧ x.price ≤ maxP := by
  simp [main_price_filter, List.mem_filter]

/-- C2 counterexample: detection keeps no seen-state, so a second run on the
same fresh listings returns the same one listing again, not zero listings. -/
theorem c2_counterexample :
    main_price_filter exC2fresh 100 = exC2fresh ∧ exC2fresh ≠ [] := by
  constructor
  · rfl
  · decide

/-- C2 amended: the program's change detection is the stateless price filter;
re-running it on its own output returns the output unchanged, and no id is
ever recorded, so repeated runs re-notify the same listings. -/
theorem c2_amended_stateless_idempotent (l : List Listing) (maxP : Int) :
    main_price_filter (main_price_filter l maxP) maxP = main_price_filter l maxP := by
  simp [main_price_filter, List.filter_filter]

/-- C3: parse_price_scalar is total on None and digit-free words, but the
input "," (a bare thousands separator) matches the regex with an all-comma
group and int("") raises ValueError, so the parser is not exception-free. -/
theorem c3_parser_raises_on_comma :
    parse_price_scalar (.vstr ",") = Except.error "ValueError: invalid literal for int"
    ∧ parse_price_scalar .null = Except.ok none
    ∧ parse_price_scalar (.vstr "free") = Except.ok none := ⟨rfl, rfl, rfl⟩

/-- C4: the value contract holds on numeric input (identity on integers,
truncation on floats, so 1234.99 yields 1234), on "$1,234" (1234), on "free"
and None (null) — but a string whose first separator run has no digit, such
as ",", raises instead of yielding null. -/
theorem c4_value_contract_and_comma_bug :
    (∀ n : Int, parse_price_scalar (.vint n) = Except.ok (some n))
    ∧ (∀ q : Rat, parse_price_scalar (.vfloat q) = Except.ok (some (Int.tdiv q.num q.den)))
    ∧ parse_price_scalar (.vfloat ratSample) = Except.ok (some 1234)
    ∧ parse_price_scalar (.vstr "$1,234") = Except.ok (some 1234)
    ∧ parse_price_scalar (.vstr "free") = Except.ok none
    ∧ parse_price_scalar .null = Except.ok none
    ∧ parse_price_scalar (.vstr ",") = Except.error "ValueError: invalid literal for int" :=
  ⟨fun _ => rfl, fun _ => rfl, by decide, rfl, rfl, rfl, rfl⟩

/-- C6: a selector timeout, a node missing its fields, and a missing href are
swallowed locally — but a per-item goto timeout propagates (try/finally with
no except) and aborts the whole scan, and a single node whose price token is
"," raises ValueError out of the whole strategy, refuting the claim. -/
theorem c6_partial_failure_handling :
    fetch_listings_from_nextdata .timeout = Except.ok []
    ∧ fetch_listings_from_nextdata .noText = Except.ok []
    ∧ fetch_listings_from_nextdata .badJson = Except.ok []
    ∧ walk_items exC6mixed = Except.ok [⟨"g", "Good", 4⟩]
    ∧ collectUrls [none, some "/item/a"] = ["https://www.mercari.com/item/a"]
    ∧ fetch_listings .timeout [some "/item/a"] (fun _ => ItemVisit.gotoTimeout) =
        Except.error "PWTimeout"
    ∧ walk_items exC6comma = Except.error "ValueError: invalid literal for int" :=
  ⟨rfl, rfl, rfl, rfl, rfl, rfl, rfl⟩

/-- C10: walk_items drops a candidate whose id is 0 or "" or whose title is
"", and the or-chain falls through a present-but-falsy id to a later key, so
id=0 with uuid="u1" is identified as "u1". -/
theorem c10_truthiness :
    walk_items (jobj [("id", .vint 0), ("name", .vstr "t"), ("price", .vint 5)]) =
      Except.ok []
    ∧ walk_items (jobj [("id", .vstr ""), ("name", .vstr "t"), ("price", .vint 5)]) =
      Except.ok []
    ∧ walk_items (jobj [("id", .vstr "a"), ("name", .vstr ""), ("price", .vint 5)]) =
      Except.ok []
    ∧ walk_items (jobj [("id", .vint 0), ("uuid", .vstr "u1"),
        ("name", .vstr "t"), ("price", .vint 5)]) = Except.ok [⟨"u1", "t", 5⟩] :=
  ⟨rfl, rfl, rfl, rfl⟩

theorem dedupAux_nodup_notmem {α : Type} [DecidableEq α] :
    ∀ (l seen : List α), (dedupAux seen l).Nodup ∧ ∀ a ∈ dedupAux seen l, a ∉ seen := by
  intro l
  induction l with
  | nil => intro seen; simp [dedupAux]
  | cons x rest ih =>
    intro seen
    simp only [dedupAux]
    by_cases hx : x ∈ seen
    · rw [if_pos hx]; exact ih seen
    · rw [if_neg hx]
      obtain ⟨h1, h2⟩ := ih (x :: seen)
      refine ⟨List.nodup_cons.mpr ⟨fun c => h2 x c (List.mem_cons_self _ _), h1⟩, ?_⟩
      intro a ha
      rcases List.mem_cons.mp ha with rfl | ha'
      · exact hx
      · exact fun c => h2 a ha' (List.mem_cons_of_mem _ c)

theorem dedupAux_sublist {α : Type} [DecidableEq α] :
    ∀ (l seen : List α), (dedupAux seen l).Sublist l := by
  intro l
  induction l with
  | nil => intro seen; simp [dedupAux]
  | cons x rest ih =>
    intro seen
    simp only [dedupAux]
    by_cases hx : x ∈ seen
    · rw [if_pos hx]; exact (ih seen).trans (List.sublist_cons_self _ _)
    · rw [if_neg hx]; exact List.Sublist.cons₂ x (ih (x :: seen))

theorem dedupAux_complete {α : Type} [DecidableEq α] :
    ∀ (l seen : List α) (a : α), a ∈ l → a ∉ seen → a ∈ dedupAux seen l := by
  intro l
  induction l with
  | nil => intro seen a ha _; exact absurd ha (List.not_mem_nil a)
  | cons x rest ih =>
    intro seen a ha hs
    simp only [dedupAux]
    by_cases hx : x ∈ seen
    · rw [if_pos hx]
      rcases List.mem_cons.mp ha with rfl | ha'
      · exact absurd hx hs
      · exact ih seen a ha' hs
    · rw [if_neg hx]
      rcases List.mem_cons.mp ha with rfl | ha'
      · exact List.mem_cons_self _ _
      · by_cases hax : a = x
        · subst hax; exact List.mem_cons_self _ _
        · refine List.mem_cons_of_mem _ (ih (x :: seen) a ha' ?_)
          simp [List.mem_cons, hax, hs]

/-- C5: when the structured-data probe yields at least one item, the scan
result is exactly those items with identifiers resolved to URLs by
buildListing, and it does not depend on the anchor-harvest inputs or the
per-item visits: the later strategies are never consulted. -/
theorem c5_first_success_wins (data : JVal) (items : List Item)
    (h1 : walk_items data = Except.ok items) (h2 : items ≠ []) :
    ∀ (anchors : List (Option String)) (visit : String → ItemVisit),
      fetch_listings (NextDataProbe.ok data) anchors visit =
        Except.ok (items.map buildListing) := by
  intro anchors visit
  have hfetch : fetch_listings_from_nextdata (NextDataProbe.ok data) =
      Except.ok (items.map buildListing) := by
    simp only [fetch_listings_from_nextdata]
    rw [h1]
  have hne : (items.map buildListing).isEmpty = false := by
    cases items with
    | nil => exact absurd rfl h2
    | cons a t => rfl
  simp only [fetch_listings]
  rw [hfetch]
  simp [hne]

/-- C5 witness: a one-item hydration payload short-circuits the fallback
strategies even when every per-item visit would time out. -/
theorem c5_first_success_wins_witness :
    walk_items exC5doc = Except.ok [⟨"m1", "A", 5⟩]
    ∧ fetch_listings (NextDataProbe.ok exC5doc) [some "/item/z"]
        (fun _ => ItemVisit.gotoTimeout) =
      Except.ok [⟨"A", 5, "https://www.mercari.com/us/item/m1/"⟩] :=
  ⟨rfl, c5_first_success_wins exC5doc [⟨"m1", "A", 5⟩] rfl (by decide)
    [some "/item/z"] (fun _ => ItemVisit.gotoTimeout)⟩

/-- C8: harvested item links are deduplicated (no repeats, order-preserving
sublist, nothing dropped) and capped at 8 visits; but a single visited URL
can contribute more than one listing: one harvested URL whose item page
holds two item records makes the scan return two listings, refuting the
at-most-one-listing-per-URL part. -/
theorem c8_harvest_bounds :
    (∀ anchors : List (Option String),
      (harvestUrls anchors).length ≤ 8
      ∧ (harvestUrls anchors).Nodup
      ∧ (harvestUrls anchors).Sublist (collectUrls anchors))
    ∧ (∀ l : List String, ∀ u ∈ l, u ∈ dedupAux [] l)
    ∧ fetch_listings .timeout [some "/item/a"] exC8visit =
        Except.ok [⟨"A", 1, "https://www.mercari.com/us/item/x/"⟩,
                   ⟨"B", 2, "https://www.mercari.com/us/item/y/"⟩] := by
  refine ⟨fun anchors => ⟨?_, ?_, ?_⟩,
    fun l u hu => dedupAux_complete l [] u hu (List.not_mem_nil u), rfl⟩
  · unfold harvestUrls
    rw [List.length_take]
    exact min_le_left _ _
  · exact (List.take_sublist _ _).nodup (dedupAux_nodup_notmem _ _).1
  · exact (List.take_sublist _ _).trans (dedupAux_sublist _ _)

theorem upsert_map_fst (acc : List ((String × Int) × Item)) (it : Item) :
    (upsert acc it).map Prod.fst =
      if keyOf it ∈ acc.map Prod.fst then acc.map Prod.fst
      else acc.map Prod.fst ++ [keyOf it] := by
  unfold upsert
  by_cases h : keyOf it ∈ acc.map Prod.fst
  · rw [if_pos h, if_pos h, List.map_map]
    exact List.map_congr_left (fun p _ => by dsimp; split <;> rfl)
  · rw [if_neg h, if_neg h]
    simp

theorem foldl_upsert_pair (l : List Item) :
    ∀ acc, (∀ p ∈ acc, p.1 = keyOf p.2) → ∀ p ∈ l.foldl upsert acc, p.1 = keyOf p.2 := by
  induction l with
  | nil => intro acc h; exact h
  | cons a t ih =>
    intro acc h
    refine ih (upsert acc a) ?_
    intro p hp
    unfold upsert at hp
    by_cases hc : keyOf a ∈ acc.map Prod.fst
    · rw [if_pos hc] at hp
      obtain ⟨q, hq, rfl⟩ := List.mem_map.mp hp
      by_cases hq1 : q.1 = keyOf a
      · simp [hq1]
      · simp only [if_neg hq1]
        exact h q hq
    · rw [if_neg hc] at hp
      rcases List.mem_append.mp hp with hp' | hp'
      · exact h p hp'
      · rw [List.mem_singleton.mp hp']

theorem dedupAux_congr {α : Type} [DecidableEq α] :
    ∀ (l s₁ s₂ : List α), (∀ a, a ∈ s₁ ↔ a ∈ s₂) → dedupAux s₁ l = dedupAux s₂ l := by
  intro l
  induction l with
  | nil => intro s₁ s₂ _; rfl
  | cons x rest ih =>
    intro s₁ s₂ h
    simp only [dedupAux]
    by_cases hx : x ∈ s₁
    · rw [if_pos hx, if_pos ((h x).mp hx)]
      exact ih s₁ s₂ h
    · rw [if_neg hx, if_neg (fun c => hx ((h x).mpr c))]
      have := ih (x :: s₁) (x :: s₂) (fun a => by simp [List.mem_cons, h a])
      rw [this]

theorem foldl_upsert_keys (l : List Item) :
    ∀ acc, (l.foldl upsert acc).map Prod.fst =
      acc.map Prod.fst ++ dedupAux (acc.map Prod.fst) (l.map keyOf) := by
  induction l with
  | nil => intro acc; simp [dedupAux]
  | cons a t ih =>
    intro acc
    show (t.foldl upsert (upsert acc a)).map Prod.fst = _
    rw [ih (upsert acc a), upsert_map_fst]
    by_cases h : keyOf a ∈ acc.map Prod.fst
    · rw [if_pos h]
      have hstep : dedupAux (acc.map Prod.fst) ((a :: t).map keyOf) =
          dedupAux (acc.map Prod.fst) (t.map keyOf) := by
        simp only [List.map_cons, dedupAux]
        rw [if_pos h]
      rw [hstep]
    · rw [if_neg h]
      have hc : dedupAux (acc.map Prod.fst ++ [keyOf a]) (t.map keyOf) =
          dedupAux (keyOf a :: acc.map Prod.fst) (t.map keyOf) :=
        dedupAux_congr _ _ _
          (fun b => by simp [List.mem_append, List.mem_cons, or_comm])
      have hstep : dedupAux (acc.map Prod.fst) ((a :: t).map keyOf) =
          keyOf a :: dedupAux (keyOf a :: acc.map Prod.fst) (t.map keyOf) := by
        simp only [List.map_cons, dedupAux]
        rw [if_neg h]
      rw [hc, hstep, List.append_assoc]
      rfl

theorem dedup_map_key (found : List Item) :
    (dedupByIdPrice found).map keyOf = dedupAux [] (found.map keyOf) := by
  unfold dedupByIdPrice
  rw [List.map_map]
  have h1 : ∀ p ∈ found.foldl upsert [], p.1 = keyOf p.2 :=
    foldl_upsert_pair found [] (fun p hp => absurd hp (List.not_mem_nil p))
  have h2 : List.map (keyOf ∘ Prod.snd) (found.foldl upsert []) =
      List.map Prod.fst (found.foldl upsert []) :=
    List.map_congr_left (fun p hp => (h1 p hp).symm)
  rw [h2, foldl_upsert_keys]
  simp

/-- C7: walk_items emits at most one entry per (id, price) pair, and the
surviving entries' keys appear in first-occurrence order of the pair in the
raw depth-first candidate stream. -/
theorem c7_walk_dedup (doc : JVal) (found items : List Item)
    (h1 : walkJ doc = Except.ok found) (h2 : walk_items doc = Except.ok items) :
    (items.map keyOf).Nodup ∧ items.map keyOf = dedupAux [] (found.map keyOf) := by
  have hit : items = dedupByIdPrice found := by
    unfold walk_items at h2
    rw [h1] at h2
    injection h2 with h'
    exact h'.symm
  subst hit
  refine ⟨?_, dedup_map_key found⟩
  rw [dedup_map_key found]
  exact (dedupAux_nodup_notmem (found.map keyOf) []).1

/-- C7 witness: a document holding two nested objects with the same
(id, price) in different surrounding contexts yields exactly one candidate,
whose key list is duplicate-free. -/
theorem c7_walk_dedup_witness :
    walk_items exC7doc = Except.ok [⟨"m1", "A tote", 5⟩]
    ∧ (([(⟨"m1", "A tote", 5⟩ : Item)]).map keyOf).Nodup := by
  constructor
  · rfl
  · exact (c7_walk_dedup exC7doc [⟨"m1", "A tote", 5⟩, ⟨"m1", "A tote", 5⟩]
      [⟨"m1", "A tote", 5⟩] rfl rfl).1

theorem parseFromText_nonneg (s : String) (n : Int)
    (h : parseFromText s = Except.ok (some n)) : 0 ≤ n := by
  unfold parseFromText at h
  split at h
  · simp at h
  · split at h
    · simp at h
    · injection h with h1
      injection h1 with h2
      rw [← h2]
      exact Int.natCast_nonneg _

theorem parse_nonneg (v : JVal) (hv : nonnegJ v = true) (n : Int)
    (h : parse_price_scalar v = Except.ok (some n)) : 0 ≤ n := by
  cases v with
  | null => simp [parse_price_scalar] at h
  | vbool b =>
    simp only [parse_price_scalar] at h
    injection h with h1
    injection h1 with h2
    rw [← h2]
    cases b <;> decide
  | vint m =>
    simp only [parse_price_scalar] at h
    injection h with h1
    injection h1 with h2
    rw [← h2]
    exact of_decide_eq_true (by simpa [nonnegJ] using hv)
  | vfloat q =>
    simp only [parse_price_scalar] at h
    injection h with h1
    injection h1 with h2
    rw [← h2]
    have hq : (0 : Rat) ≤ q := of_decide_eq_true (by simpa [nonnegJ] using hv)
    have hnum : 0 ≤ q.num := Rat.num_nonneg.mpr hq
    obtain ⟨m, hm⟩ := Int.eq_ofNat_of_zero_le hnum
    rw [hm]
    exact Int.natCast_nonneg (m / q.den)
  | vstr s =>
    simp only [parse_price_scalar] at h
    exact parseFromText_nonneg _ n h
  | arr xs =>
    simp only [parse_price_scalar] at h
    exact parseFromText_nonneg _ n h
  | obj kvs =>
    simp only [parse_price_scalar] at h
    exact parseFromText_nonneg _ n h

theorem pyGet_nonneg : ∀ (kvs : JObj), nonnegO kvs = true →
    ∀ key v, pyGet kvs key = some v → nonnegJ v = true
  | .nil => by intro _ key v h; simp [pyGet] at h
  | .cons k w tl => by
    intro hk key v h
    simp only [pyGet] at h
    simp only [nonnegO, Bool.and_eq_true] at hk
    by_cases hkey : (k == key) = true
    · rw [if_pos hkey] at h
      injection h with h'
      rw [← h']
      exact hk.1
    · rw [if_neg hkey] at h
      exact pyGet_nonneg tl hk.2 key v h

theorem firstPresent_nonneg (kvs : JObj) (hk : nonnegO kvs = true) :
    ∀ (keys : List String) (v : JVal), firstPresent kvs keys = some v →
      nonnegJ v = true := by
  intro keys
  induction keys with
  | nil => intro v h; simp [firstPresent] at h
  | cons k rest ih =>
    intro v h
    simp only [firstPresent] at h
    cases hg : pyGet kvs k with
    | some w =>
      rw [hg] at h
      injection h with h'
      rw [← h']
      exact pyGet_nonneg kvs hk k w hg
    | none =>
      rw [hg] at h
      exact ih v h

theorem flatPrice_nonneg (kvs : JObj) (hk : nonnegO kvs = true) (n : Int)
    (h : flatPrice kvs = Except.ok (some n)) : 0 ≤ n := by
  unfold flatPrice at h
  split at h
  · simp at h
  · rename_i v hv
    exact parse_nonneg v (firstPresent_nonneg kvs hk _ v hv) n h

theorem nestedPrice_nonneg (kvs : JObj) (hk : nonnegO kvs = true) (n : Int)
    (h : nestedPrice kvs = Except.ok (some n)) : 0 ≤ n := by
  unfold nestedPrice at h
  split at h
  · rename_i inner hinner
    have hin : nonnegO inner = true := by
      simpa [nonnegJ] using pyGet_nonneg kvs hk "price" (.obj inner) hinner
    split at h
    · simp at h
    · rename_i v hv
      exact parse_nonneg v (firstPresent_nonneg inner hin _ v hv) n h
  · simp at h

theorem candidate_nonneg (kvs : JObj) (hk : nonnegO kvs = true) (it : Item)
    (h : candidate kvs = Except.ok (some it)) : 0 ≤ it.price := by
  unfold candidate at h
  split at h
  · simp at h
  · rename_i p0 hflat
    split at h
    · simp at h
    · rename_i price hprice
      split at h
      · rename_i idv t p hid htitle
        injection h with h1
        injection h1 with h2
        rw [← h2]
        split at hprice
        · rename_i m
          injection hprice with hpr
          injection hpr with hpr'
          rw [← hpr']
          exact flatPrice_nonneg kvs hk m hflat
        · exact nestedPrice_nonneg kvs hk p hprice
      · simp at h

mutual

theorem walkJ_nonneg : ∀ (x : JVal), nonnegJ x = true →
    ∀ found, walkJ x = Except.ok found → ∀ it ∈ found, 0 ≤ it.price
  | .obj kvs => by
    intro hx found hw it hit
    simp only [walkJ] at hw
    split at hw
    · simp at hw
    · rename_i c heqc
      split at hw
      · simp at hw
      · rename_i rest heqr
        injection hw with hw'
        rw [← hw'] at hit
        have hko : nonnegO kvs = true := by simpa [nonnegJ] using hx
        rcases List.mem_append.mp hit with hc | hr
        · cases c with
          | none => simp [Option.toList] at hc
          | some j =>
            have : it = j := by simpa [Option.toList] using hc
            rw [this]
            exact candidate_nonneg kvs hko j heqc
        · exact walkO_nonneg kvs hko rest heqr it hr
  | .arr xs => by
    intro hx found hw it hit
    simp only [walkJ] at hw
    exact walkL_nonneg xs (by simpa [nonnegJ] using hx) found hw it hit
  | .null | .vbool _ | .vint _ | .vfloat _ | .vstr _ => by
    intro hx found hw it hit
    simp only [walkJ] at hw
    injection hw with hw'
    rw [← hw'] at hit
    simp at hit

theorem walkL_nonneg : ∀ (xs : JList), nonnegL xs = true →
    ∀ found, walkL xs = Except.ok found → ∀ it ∈ found, 0 ≤ it.price
  | .nil => by
    intro _ found hw it hit
    injection hw with hw'
    rw [← hw'] at hit
    simp at hit
  | .cons v tl => by
    intro hx found hw it hit
    simp only [walkL] at hw
    simp only [nonnegL, Bool.and_eq_true] at hx
    split at hw
    · simp at hw
    · rename_i a heqa
      split at hw
      · simp at hw
      · rename_i b heqb
        injection hw with hw'
        rw [← hw'] at hit
        rcases List.mem_append.mp hit with h1 | h2
        · exact walkJ_nonneg v hx.1 a heqa it h1
        · exact walkL_nonneg tl hx.2 b heqb it h2

theorem walkO_nonneg : ∀ (kvs : JObj), nonnegO kvs = true →
    ∀ found, walkO kvs = Except.ok found → ∀ it ∈ found, 0 ≤ it.price
  | .nil => by
    intro _ found hw it hit
    injection hw with hw'
    rw [← hw'] at hit
    simp at hit
  | .cons k v tl => by
    intro hx found hw it hit
    simp only [walkO] at hw
    simp only [nonnegO, Bool.and_eq_true] at hx
    split at hw
    · simp at hw
    · rename_i a heqa
      split at hw
      · simp at hw
      · rename_i b heqb
        injection hw with hw'
        rw [← hw'] at hit
        rcases List.mem_append.mp hit with h1 | h2
        · exact walkJ_nonneg v hx.1 a heqa it h1
        · exact walkO_nonneg tl hx.2 b heqb it h2

end

theorem foldl_upsert_snd_mem (l : List Item) :
    ∀ acc (p : (String × Int) × Item), p ∈ l.foldl upsert acc → p ∈ acc ∨ p.2 ∈ l := by
  induction l with
  | nil => intro acc p hp; exact Or.inl hp
  | cons a t ih =>
    intro acc p hp
    rcases ih (upsert acc a) p hp with h1 | h2
    · unfold upsert at h1
      by_cases hc : keyOf a ∈ acc.map Prod.fst
      · rw [if_pos hc] at h1
        obtain ⟨q, hq, rfl⟩ := List.mem_map.mp h1
        by_cases hq1 : q.1 = keyOf a
        · rw [if_pos hq1]
          exact Or.inr (List.mem_cons_self _ _)
        · rw [if_neg hq1]
          exact Or.inl hq
      · rw [if_neg hc] at h1
        rcases List.mem_append.mp h1 with h3 | h3
        · exact Or.inl h3
        · rw [List.mem_singleton.mp h3]
          exact Or.inr (List.mem_cons_self _ _)
    · exact Or.inr (List.mem_cons_of_mem _ h2)

theorem dedup_subset (l : List Item) (it : Item) (h : it ∈ dedupByIdPrice l) : it ∈ l := by
  unfold dedupByIdPrice at h
  obtain ⟨p, hp, rfl⟩ := List.mem_map.mp h
  rcases foldl_upsert_snd_mem l [] p hp with h1 | h2
  · exact absurd h1 (List.not_mem_nil p)
  · exact h2

/-- C9 counterexample: a candidate whose numeric price value is negative is
emitted by walk_items with that negative price, not discarded at
construction. -/
theorem c9_counterexample :
    walk_items exC9neg = Except.ok [⟨"a", "t", -5⟩]
    ∧ (Item.mk "a" "t" (-5)).price < 0 := ⟨rfl, by decide⟩

/-- C9 amended: every listing extracted from a document whose numeric values
are all non-negative has a non-negative integer price (text-parsed prices are
digit runs, hence non-negative); a negative numeric price value, however, is
passed through rather than discarded. -/
theorem c9_amended_nonneg (doc : JVal) (found : List Item)
    (h1 : nonnegJ doc = true) (h2 : walk_items doc = Except.ok found) :
    ∀ it ∈ found, 0 ≤ it.price := by
  intro it hit
  unfold walk_items at h2
  split at h2
  · simp at h2
  · rename_i raw heq
    injection h2 with h2'
    rw [← h2'] at hit
    exact walkJ_nonneg doc h1 raw heq it (dedup_subset raw it hit)

/-- C9 witness: the amended non-negativity applied to a concrete document
with a non-negative numeric price. -/
theorem c9_amended_nonneg_witness :
    nonnegJ exC9pos = true
    ∧ walk_items exC9pos = Except.ok [⟨"a", "T", 7⟩]
    ∧ 0 ≤ (Item.mk "a" "T" 7).price :=
  ⟨rfl, rfl, c9_amended_nonneg exC9pos [⟨"a", "T", 7⟩] rfl rfl ⟨"a", "T", 7⟩
    (List.mem_cons_self _ _)⟩
